import Mathlib

/-!
Verification of `scripts/consolidate-templates.py`: a shallow embedding of
its data model, loaders, duplicate detector, deduplicator, sorter and
writers, together with theorems settling the specification's claims.
Python `int` values are modelled as `Int`, strings as `String`, dicts with
string keys as association lists, and exceptions as `Option` (with `none`
for a raised exception that terminates the program).
-/

/-- The template record: the nine fields every loader populates. -/
structure Template where
  title : String
  content : String
  format : String
  tags : String
  category : String
  authorEmail : String
  visibility : String
  viewCount : Int
  useCount : Int
deriving DecidableEq, Inhabited

/-- Strip leading and trailing whitespace from a character list. -/
def stripChars (cs : List Char) : List Char :=
  ((cs.dropWhile Char.isWhitespace).reverse.dropWhile Char.isWhitespace).reverse

/-- Model of Python `str.strip()`: remove whitespace from both ends. -/
def pyStrip (s : String) : String :=
  String.mk (stripChars s.toList)

/-- One digit character to its value, `none` on a non-digit. -/
def charDigit (c : Char) : Option Nat :=
  if c.isDigit then some (c.toNat - 48) else none

/-- Fold decimal digits most-significant first onto an accumulator;
`none` as soon as a non-digit appears. -/
def digitsToNatAux : List Char → Nat → Option Nat
  | [], acc => some acc
  | c :: cs, acc =>
    match charDigit c with
    | some d => digitsToNatAux cs (10 * acc + d)
    | none => none

/-- Model of Python `int(s)` on an ordinary decimal string: surrounding
whitespace is stripped, an optional sign is allowed, and the rest must be a
nonempty run of decimal digits; `none` models the `ValueError` that
terminates the program. -/
def parsePyInt (s : String) : Option Int :=
  match stripChars s.toList with
  | [] => none
  | c :: cs =>
    if c = '-' then
      match cs with
      | [] => none
      | _ => (digitsToNatAux cs 0).map (fun n => -(n : Int))
    else if c = '+' then
      match cs with
      | [] => none
      | _ => (digitsToNatAux cs 0).map (fun n => (n : Int))
    else (digitsToNatAux (c :: cs) 0).map (fun n => (n : Int))

/-- A CSV row as `csv.DictReader` hands it to the loaders: each of the nine
recognised columns is either absent (`none`) or a string cell. -/
structure CsvRow where
  title : Option String
  content : Option String
  format : Option String
  tags : Option String
  category : Option String
  authorEmail : Option String
  visibility : Option String
  viewCount : Option String
  useCount : Option String
deriving DecidableEq, Inhabited

/-- A JSON count field's value: a number or a string (`int(...)` accepts
both; JSON numbers are modelled at integer precision). -/
inductive JCount where
  | num (n : Int)
  | str (s : String)
deriving DecidableEq

/-- A JSON `tags` field: either a pre-joined string or a list of strings. -/
inductive JTags where
  | str (s : String)
  | list (xs : List String)
deriving DecidableEq

/-- A JSON item as `json.load` hands it to the loaders. -/
structure JsonItem where
  title : Option String
  content : Option String
  format : Option String
  tags : Option JTags
  category : Option String
  authorEmail : Option String
  visibility : Option String
  viewCount : Option JCount
  useCount : Option JCount
deriving DecidableEq, Inhabited

/-- `int(row.get(k, 0))` on a CSV cell: an absent key coerces the default
`0`; a present cell goes through `int(s)` and may raise. Used by the
sample-templates.csv loader. -/
def csvCountPlain (c : Option String) : Option Int :=
  match c with
  | none => some 0
  | some s => parsePyInt s

/-- `int(row.get(k, 0)) if row.get(k) else 0` on a CSV cell: an absent key
or a falsy (empty) cell yields `0`; only a nonempty cell goes through
`int(s)`. Used by the plaintext-templates.csv and analyzed-templates.csv
loaders. -/
def csvCountGuarded (c : Option String) : Option Int :=
  match c with
  | none => some 0
  | some s => if s = "" then some 0 else parsePyInt s

/-- `int(item.get(k, 0))` on a JSON field: an absent key coerces the
default `0`; a number passes through; a string goes through `int(s)`. -/
def jsonCount (c : Option JCount) : Option Int :=
  match c with
  | none => some 0
  | some (JCount.num n) => some n
  | some (JCount.str s) => parsePyInt s

/-- `','.join(tags)` normalisation: a missing field defaults to the empty
list, a list is comma-joined, a string passes through. -/
def joinTags (c : Option JTags) : String :=
  match c with
  | none => ""
  | some (JTags.str s) => s
  | some (JTags.list xs) => String.intercalate "," xs

/-- Loader for one `sample-templates.csv` row: defaults text fields to
`""`, forces `format` to `"html"`, coerces both counts with `int(...)`. -/
def loadSampleCsvRow (row : CsvRow) : Option Template := do
  let vc ← csvCountPlain row.viewCount
  let uc ← csvCountPlain row.useCount
  pure {
    title := row.title.getD ""
    content := row.content.getD ""
    format := "html"
    tags := row.tags.getD ""
    category := row.category.getD ""
    authorEmail := row.authorEmail.getD ""
    visibility := row.visibility.getD ""
    viewCount := vc
    useCount := uc }

/-- Loader for one `sample-templates.json` item: flattens list tags,
forces `format` to `"html"`, coerces both counts with `int(...)`. -/
def loadSampleJsonItem (item : JsonItem) : Option Template := do
  let vc ← jsonCount item.viewCount
  let uc ← jsonCount item.useCount
  pure {
    title := item.title.getD ""
    content := item.content.getD ""
    format := "html"
    tags := joinTags item.tags
    category := item.category.getD ""
    authorEmail := item.authorEmail.getD ""
    visibility := item.visibility.getD ""
    viewCount := vc
    useCount := uc }

/-- Loader for one `plaintext-templates.csv` row: `format` comes from the
row with default `"plain"`, counts use the guarded coercion. -/
def loadPlainCsvRow (row : CsvRow) : Option Template := do
  let vc ← csvCountGuarded row.viewCount
  let uc ← csvCountGuarded row.useCount
  pure {
    title := row.title.getD ""
    content := row.content.getD ""
    format := row.format.getD "plain"
    tags := row.tags.getD ""
    category := row.category.getD ""
    authorEmail := row.authorEmail.getD ""
    visibility := row.visibility.getD ""
    viewCount := vc
    useCount := uc }

/-- Loader for one `plaintext-templates.json` item: flattens list tags,
`format` comes from the item with default `"plain"`, counts coerce with
`int(...)`. -/
def loadPlainJsonItem (item : JsonItem) : Option Template := do
  let vc ← jsonCount item.viewCount
  let uc ← jsonCount item.useCount
  pure {
    title := item.title.getD ""
    content := item.content.getD ""
    format := item.format.getD "plain"
    tags := joinTags item.tags
    category := item.category.getD ""
    authorEmail := item.authorEmail.getD ""
    visibility := item.visibility.getD ""
    viewCount := vc
    useCount := uc }

/-- Loader for one `analyzed-templates.csv` row: same shape as the
plaintext CSV loader. -/
def loadAnalyzedCsvRow (row : CsvRow) : Option Template := do
  let vc ← csvCountGuarded row.viewCount
  let uc ← csvCountGuarded row.useCount
  pure {
    title := row.title.getD ""
    content := row.content.getD ""
    format := row.format.getD "plain"
    tags := row.tags.getD ""
    category := row.category.getD ""
    authorEmail := row.authorEmail.getD ""
    visibility := row.visibility.getD ""
    viewCount := vc
    useCount := uc }

/-- `template['viewCount'] + template['useCount']`, the dedup score. -/
def score (t : Template) : Int :=
  t.viewCount + t.useCount

/-- The key under which a record's content is registered for duplicate
detection: `content = template['content'].strip()` followed by
`content[:200] if len(content) > 200 else content`. -/
def contentKey (t : Template) : String :=
  let c := stripChars t.content.toList
  String.mk (if c.length > 200 then c.take 200 else c)

/-- One entry of the duplicates report's `titles` array:
`{'title': ..., 'indices': [idx1, idx2]}`. -/
structure TitleDup where
  title : String
  idx1 : Nat
  idx2 : Nat
deriving DecidableEq

/-- One entry of the duplicates report's `content` array:
`{'title1': ..., 'title2': ..., 'indices': [idx1, idx2]}`. -/
structure ContentDup where
  title1 : String
  title2 : String
  idx1 : Nat
  idx2 : Nat
deriving DecidableEq

/-- Lookup in a Python dict modelled as an association list. -/
def lookupA (m : List (String × Nat)) (s : String) : Option Nat :=
  (m.find? (fun p => p.1 == s)).map (fun p => p.2)

/-- The mutable state of the detection pass: the two first-seen dicts
`seen_titles` and `seen_content`, and the two arrays of the
`duplicates` report. -/
structure DetectState where
  seenTitles : List (String × Nat)
  seenContent : List (String × Nat)
  dupTitles : List TitleDup
  dupContent : List ContentDup
deriving DecidableEq

/-- The title half of one detection iteration at index `i`: a trimmed
title already in `seen_titles` contributes a report entry, a new one is
registered with the current index. -/
def detectTitleStep (i : Nat) (t : Template) (st : DetectState) : DetectState :=
  match lookupA st.seenTitles (pyStrip t.title) with
  | some j => { st with dupTitles := st.dupTitles ++ [(⟨pyStrip t.title, j, i⟩ : TitleDup)] }
  | none => { st with seenTitles := st.seenTitles ++ [(pyStrip t.title, i)] }

/-- The content half of one detection iteration at index `i`: a content
key already in `seen_content` contributes a report entry (its `title1`
reads `all_templates[seen_content[content_key]]['title']`), a new one is
registered with the current index. -/
def detectContentStep (all : List Template) (i : Nat) (t : Template) (st : DetectState) :
    DetectState :=
  match lookupA st.seenContent (contentKey t) with
  | some j =>
    { st with dupContent :=
        st.dupContent ++ [(⟨(all.getD j default).title, t.title, j, i⟩ : ContentDup)] }
  | none => { st with seenContent := st.seenContent ++ [(contentKey t, i)] }

/-- One iteration of the detection loop at index `i`: the title check
followed by the content check. -/
def detectStep (all : List Template) (i : Nat) (t : Template) (st : DetectState) : DetectState :=
  detectContentStep all i t (detectTitleStep i t st)

/-- Run the detection loop over a suffix, `i` being the enumeration index
of its first element. -/
def detectFrom (all : List Template) : Nat → DetectState → List Template → DetectState
  | _, st, [] => st
  | i, st, t :: ts => detectFrom all (i + 1) (detectStep all i t st) ts

/-- The full detection pass (`for i, template in enumerate(all_templates)`)
starting from empty dicts and an empty report. -/
def detect (all : List Template) : DetectState :=
  detectFrom all 0 ⟨[], [], [], []⟩ all

/-- Index of the first element satisfying `p`, counting from `i`. -/
def firstIdxFrom (p : Template → Bool) : Nat → List Template → Option Nat
  | _, [] => none
  | i, t :: ts => if p t then some i else firstIdxFrom p (i + 1) ts

/-- Index of the first element of a list satisfying `p`. -/
def firstIdx (p : Template → Bool) (l : List Template) : Option Nat :=
  firstIdxFrom p 0 l

/-- Declarative form of the title collisions: walking the records with the
already-processed prefix `P` at hand, a record whose trimmed title already
occurs in `P` yields exactly one entry pairing the index of the first such
occurrence with the current index (`P.length`); a first occurrence yields
nothing. -/
def specTitleDupsGo (P : List Template) : List Template → List TitleDup
  | [] => []
  | t :: ts =>
    match firstIdx (fun u => pyStrip u.title == pyStrip t.title) P with
    | some j => ⟨pyStrip t.title, j, P.length⟩ :: specTitleDupsGo (P ++ [t]) ts
    | none => specTitleDupsGo (P ++ [t]) ts

/-- Declarative form of the full title-collision report. -/
def specTitleDups (all : List Template) : List TitleDup :=
  specTitleDupsGo [] all

/-- Declarative form of the content collisions: a record whose content key
(trimmed content truncated to 200 characters) already occurs in the
processed prefix `P` yields exactly one entry carrying the two raw titles
and pairing the index of the first occurrence with the current index. -/
def specContentDupsGo (P : List Template) : List Template → List ContentDup
  | [] => []
  | t :: ts =>
    match firstIdx (fun u => contentKey u == contentKey t) P with
    | some j => ⟨(P.getD j default).title, t.title, j, P.length⟩ :: specContentDupsGo (P ++ [t]) ts
    | none => specContentDupsGo (P ++ [t]) ts

/-- Declarative form of the full content-collision report. -/
def specContentDups (all : List Template) : List ContentDup :=
  specContentDupsGo [] all

/-- `[t for t in all_templates if t['title'].strip() == title]`. -/
def sameTitle (all : List Template) (s : String) : List Template :=
  all.filter (fun t => pyStrip t.title == s)

/-- Python `max(..., key=f)` folded over the tail: the current best is
replaced only on a strictly greater key, so the first maximum wins. -/
def maxByFirst (f : Template → Int) : Template → List Template → Template
  | t, [] => t
  | t, u :: us => maxByFirst f (if f t < f u then u else t) us

/-- `max(same_title, key=lambda t: t['viewCount'] + t['useCount'])`; the
empty case never arises on the call sites reached from `dedup`. -/
def bestFor (all : List Template) (s : String) : Template :=
  match sameTitle all s with
  | [] => default
  | t :: ts => maxByFirst score t ts

/-- The dedup loop: walk the records, skip a trimmed title already in
`processed`, otherwise append the best-scoring record of that title group
and mark the title processed. -/
def dedupGo (all : List Template) : List Template → List String → List Template
  | [], _ => []
  | t :: ts, processed =>
    let s := pyStrip t.title
    if s ∈ processed then dedupGo all ts processed
    else bestFor all s :: dedupGo all ts (s :: processed)

/-- The deduplication stage: one pass over `all_templates` with an
initially empty `processed` set. -/
def dedup (all : List Template) : List Template :=
  dedupGo all all []

/-- The distinct trimmed titles of `l` in first-seen order, those of
`seen` excluded. -/
def uniqTitles : List Template → List String → List String
  | [], _ => []
  | t :: ts, seen =>
    let s := pyStrip t.title
    if s ∈ seen then uniqTitles ts seen
    else s :: uniqTitles ts (s :: seen)

/-- The sort key order `key=lambda t: (t['category'], t['title'])`:
non-decreasing lexicographically in the pair (category, title). -/
def keyLE (t u : Template) : Prop :=
  t.category < u.category ∨ (t.category = u.category ∧ t.title ≤ u.title)

instance : DecidableRel keyLE := fun t u => by
  unfold keyLE; infer_instance

instance : IsTotal Template keyLE := by
  constructor
  intro t u
  rcases lt_trichotomy t.category u.category with h | h | h
  · exact Or.inl (Or.inl h)
  · rcases le_total t.title u.title with h' | h'
    · exact Or.inl (Or.inr ⟨h, h'⟩)
    · exact Or.inr (Or.inr ⟨h.symm, h'⟩)
  · exact Or.inr (Or.inl h)

instance : IsTrans Template keyLE := by
  constructor
  intro a b c hab hbc
  rcases hab with h1 | ⟨h1, h1'⟩
  · rcases hbc with h2 | ⟨h2, _⟩
    · exact Or.inl (h1.trans h2)
    · exact Or.inl (h2 ▸ h1)
  · rcases hbc with h2 | ⟨h2, h2'⟩
    · exact Or.inl (h1 ▸ h2)
    · exact Or.inr ⟨h1.trans h2, h1'.trans h2'⟩

/-- `unique_templates.sort(key=lambda t: (t['category'], t['title']))`
after deduplication: the record list the writers receive. Python's sort is
stable, as is insertion sort, so this is the exact output list. -/
def finalTemplates (all : List Template) : List Template :=
  List.insertionSort keyLE (dedup all)

/-- The fixed CSV header row. -/
def csvFieldnames : List String :=
  ["title", "content", "format", "tags", "category", "authorEmail", "visibility",
    "viewCount", "useCount"]

/-- One CSV data row as `csv.DictWriter` emits it: the nine field values
in header order, counts rendered in decimal. -/
def csvRowOf (t : Template) : List String :=
  [t.title, t.content, t.format, t.tags, t.category, t.authorEmail, t.visibility,
    t.viewCount.repr, t.useCount.repr]

/-- The consolidated CSV: header row then one row per record, in order. -/
def writeCsv (ts : List Template) : List (List String) :=
  csvFieldnames :: ts.map csvRowOf

/-- The consolidated JSON: the array of records, field for field, in
order (`json.dump(unique_templates, ...)`). -/
def writeJson (ts : List Template) : List Template :=
  ts

/-- A record whose content has a leading space. -/
def cexRawA : Template := ⟨"A", " a", "plain", "", "", "", "", 0, 0⟩

/-- A record with the same content but no leading space. -/
def cexRawB : Template := ⟨"B", "a", "plain", "", "", "", "", 0, 0⟩

/-- A first same-titled record used in concrete checks. -/
def cexTieA : Template := ⟨"X", "c1", "plain", "", "catB", "", "", 5, 0⟩

/-- A second record whose title trims to the same string and whose score
ties with the first. -/
def cexTieB : Template := ⟨" X ", "c2", "plain", "", "catA", "", "", 3, 2⟩

/-- Source-side condition: every present CSV count cell that parses at all
parses to a non-negative integer. -/
def csvCountsNonneg (row : CsvRow) : Prop :=
  (∀ s n, row.viewCount = some s → parsePyInt s = some n → 0 ≤ n) ∧
  (∀ s n, row.useCount = some s → parsePyInt s = some n → 0 ≤ n)

/-- Source-side condition on one JSON count field: a numeric value is
non-negative and a string value parses, if at all, to a non-negative
integer. -/
def jCountNonneg (c : Option JCount) : Prop :=
  (∀ n, c = some (JCount.num n) → 0 ≤ n) ∧
  (∀ s n, c = some (JCount.str s) → parsePyInt s = some n → 0 ≤ n)

/-- Source-side condition: both JSON count fields are non-negative. -/
def jsonCountsNonneg (item : JsonItem) : Prop :=
  jCountNonneg item.viewCount ∧ jCountNonneg item.useCount

/-- A CSV row whose viewCount cell holds the string "-1". -/
def negRow : CsvRow := ⟨some "T", none, none, none, none, none, none, some "-1", none⟩

/-- The record the sample CSV loader builds from `negRow`. -/
def negTemplate : Template := ⟨"T", "", "html", "", "", "", "", -1, 0⟩

/-- A CSV row with every cell absent. -/
def allNoneRow : CsvRow := ⟨none, none, none, none, none, none, none, none, none⟩

/-- The record the sample CSV loader builds from `allNoneRow`. -/
def allNoneTemplate : Template := ⟨"", "", "html", "", "", "", "", 0, 0⟩

/-- A CSV row whose viewCount cell is present but empty. -/
def emptyCountRow : CsvRow := ⟨none, none, none, none, none, none, none, some "", none⟩

/-- What the plaintext CSV loader makes of `emptyCountRow`. -/
def emptyCountTemplate : Template := ⟨"", "", "plain", "", "", "", "", 0, 0⟩

/-- A CSV row carrying a source format value that the sample loader must
ignore. -/
def xmlRow : CsvRow := ⟨some "T", none, some "xml", none, none, none, none, none, none⟩

/-- The record the sample CSV loader builds from `xmlRow`: format "html",
not the row's "xml". -/
def xmlTemplate : Template := ⟨"T", "", "html", "", "", "", "", 0, 0⟩

/-- Big-endian decimal digit characters of a natural number. -/
def natChars (n : Nat) : List Char :=
  if _h : n < 10 then [Nat.digitChar n]
  else natChars (n / 10) ++ [Nat.digitChar (n % 10)]
decreasing_by exact Nat.div_lt_self (by omega) (by omega)

/-! ### Lemmas about the association-list dict and first indices -/

theorem lookupA_append_some {m : List (String × Nat)} {s : String} {j : Nat}
    (h : lookupA m s = some j) (m' : List (String × Nat)) :
    lookupA (m ++ m') s = some j := by
  unfold lookupA at h ⊢
  rw [List.find?_append]
  cases hf : m.find? (fun p => p.1 == s) with
  | none => rw [hf] at h; exact absurd h (by simp)
  | some p => rw [hf] at h; exact h

theorem lookupA_nil (s : String) : lookupA [] s = none := rfl

theorem lookupA_append_none {m : List (String × Nat)} {s : String}
    (h : lookupA m s = none) (m' : List (String × Nat)) :
    lookupA (m ++ m') s = lookupA m' s := by
  unfold lookupA at h ⊢
  cases hf : m.find? (fun p => p.1 == s) with
  | none => rw [List.find?_append, hf]; rfl
  | some p => rw [hf] at h; simp at h

theorem lookupA_single (k : String) (i : Nat) (s : String) :
    lookupA [(k, i)] s = if k == s then some i else none := by
  by_cases h : k == s <;> simp [lookupA, List.find?, h]

theorem firstIdxFrom_append_some {p : Template → Bool} :
    ∀ {P : List Template} {i j : Nat},
      firstIdxFrom p i P = some j → ∀ Q, firstIdxFrom p i (P ++ Q) = some j := by
  intro P
  induction P with
  | nil => intro i j h; simp [firstIdxFrom] at h
  | cons t ts ih =>
    intro i j h Q
    by_cases hp : p t
    · simpa [firstIdxFrom, hp] using h
    · rw [firstIdxFrom] at h
      simp only [hp, if_false] at h
      simpa [firstIdxFrom, hp] using ih h Q

theorem firstIdxFrom_append_none {p : Template → Bool} :
    ∀ {P : List Template} {i : Nat},
      firstIdxFrom p i P = none →
        ∀ Q, firstIdxFrom p i (P ++ Q) = firstIdxFrom p (i + P.length) Q := by
  intro P
  induction P with
  | nil => intro i _ Q; simp [firstIdxFrom]
  | cons t ts ih =>
    intro i h Q
    by_cases hp : p t
    · simp [firstIdxFrom, hp] at h
    · rw [firstIdxFrom] at h
      simp only [hp, if_false] at h
      rw [List.cons_append, firstIdxFrom]
      simp only [hp, if_false]
      rw [ih h Q]
      have harith : i + 1 + ts.length = i + (t :: ts).length := by
        simp only [List.length_cons]
        omega
      rw [harith]
      simp [hp]

theorem firstIdxFrom_some_bounds {p : Template → Bool} :
    ∀ {P : List Template} {i j : Nat},
      firstIdxFrom p i P = some j → i ≤ j ∧ j < i + P.length := by
  intro P
  induction P with
  | nil => intro i j h; simp [firstIdxFrom] at h
  | cons t ts ih =>
    intro i j h
    rw [firstIdxFrom] at h
    by_cases hp : p t
    · simp only [hp, if_true] at h
      injection h with h
      simp only [List.length_cons]
      omega
    · simp only [hp, if_false] at h
      have := ih h
      simp only [List.length_cons]
      omega

theorem firstIdx_append_single_of_some {p : Template → Bool} {P : List Template} {j : Nat}
    (h : firstIdx p P = some j) (t : Template) : firstIdx p (P ++ [t]) = some j :=
  firstIdxFrom_append_some h [t]

theorem firstIdx_append_single_of_none {p : Template → Bool} {P : List Template}
    (h : firstIdx p P = none) (t : Template) :
    firstIdx p (P ++ [t]) = if p t then some P.length else none := by
  unfold firstIdx at *
  rw [firstIdxFrom_append_none h [t]]
  simp [firstIdxFrom]

theorem firstIdx_some_lt {p : Template → Bool} {P : List Template} {j : Nat}
    (h : firstIdx p P = some j) : j < P.length := by
  have := firstIdxFrom_some_bounds h
  omega

theorem getD_append_left {P R : List Template} {j : Nat} (h : j < P.length) (d : Template) :
    (P ++ R).getD j d = P.getD j d := by
  simp [List.getD_eq_getElem?_getD, List.getElem?_append_left h]

/-! ### The first-seen map invariant of the detection pass -/

/-- After a step whose key is already registered, the first-seen map of an
extended prefix is unchanged. -/
theorem seenMap_step_some {key : Template → String} {m : List (String × Nat)}
    {P : List Template}
    (hInv : ∀ s, lookupA m s = firstIdx (fun u => key u == s) P)
    {t : Template} {j : Nat} (h : lookupA m (key t) = some j) :
    ∀ s, lookupA m s = firstIdx (fun u => key u == s) (P ++ [t]) := by
  intro s
  cases hP : firstIdx (fun u => key u == s) P with
  | some j' => rw [hInv s, hP, firstIdx_append_single_of_some hP]
  | none =>
    rw [firstIdx_append_single_of_none hP]
    by_cases hk : key t == s
    · exfalso
      have : key t = s := by simpa using hk
      rw [this, hInv s, hP] at h
      simp at h
    · rw [hInv s, hP]
      simp [hk]

theorem detectTitleStep_of_some {st : DetectState} {t : Template} {j : Nat} (i : Nat)
    (h : lookupA st.seenTitles (pyStrip t.title) = some j) :
    detectTitleStep i t st =
      { st with dupTitles := st.dupTitles ++ [(⟨pyStrip t.title, j, i⟩ : TitleDup)] } := by
  unfold detectTitleStep
  rw [h]

theorem detectTitleStep_of_none {st : DetectState} {t : Template} (i : Nat)
    (h : lookupA st.seenTitles (pyStrip t.title) = none) :
    detectTitleStep i t st =
      { st with seenTitles := st.seenTitles ++ [(pyStrip t.title, i)] } := by
  unfold detectTitleStep
  rw [h]

theorem detectContentStep_of_some {st : DetectState} {t : Template} {j : Nat}
    (all : List Template) (i : Nat)
    (h : lookupA st.seenContent (contentKey t) = some j) :
    detectContentStep all i t st =
      { st with dupContent :=
          st.dupContent ++ [(⟨(all.getD j default).title, t.title, j, i⟩ : ContentDup)] } := by
  unfold detectContentStep
  rw [h]

theorem detectContentStep_of_none {st : DetectState} {t : Template}
    (all : List Template) (i : Nat)
    (h : lookupA st.seenContent (contentKey t) = none) :
    detectContentStep all i t st =
      { st with seenContent := st.seenContent ++ [(contentKey t, i)] } := by
  unfold detectContentStep
  rw [h]

/-- After a step whose key is new, appending the key with the current
index restores the first-seen map invariant for the extended prefix. -/
theorem seenMap_step_none {key : Template → String} {m : List (String × Nat)}
    {P : List Template}
    (hInv : ∀ s, lookupA m s = firstIdx (fun u => key u == s) P) (t : Template) :
    ∀ s, lookupA (m ++ [(key t, P.length)]) s = firstIdx (fun u => key u == s) (P ++ [t]) := by
  intro s
  cases hP : firstIdx (fun u => key u == s) P with
  | some j' =>
    rw [firstIdx_append_single_of_some hP]
    have hm : lookupA m s = some j' := by rw [hInv s, hP]
    exact lookupA_append_some hm _
  | none =>
    rw [firstIdx_append_single_of_none hP]
    have hm : lookupA m s = none := by rw [hInv s, hP]
    rw [lookupA_append_none hm, lookupA_single]

/-- The heart of the detection pass: running the loop over the remaining
records, with both first-seen maps correct for the processed prefix,
appends exactly the declarative collision entries of the remainder to each
report array. -/
theorem detectFrom_spec (all : List Template) :
    ∀ (R P : List Template) (st : DetectState),
      all = P ++ R →
      (∀ s, lookupA st.seenTitles s = firstIdx (fun u => pyStrip u.title == s) P) →
      (∀ s, lookupA st.seenContent s = firstIdx (fun u => contentKey u == s) P) →
      (detectFrom all P.length st R).dupTitles = st.dupTitles ++ specTitleDupsGo P R ∧
      (detectFrom all P.length st R).dupContent = st.dupContent ++ specContentDupsGo P R := by
  intro R
  induction R with
  | nil =>
    intro P st _ _ _
    simp [detectFrom, specTitleDupsGo, specContentDupsGo]
  | cons t ts ih =>
    intro P st hall hT hC
    have hall' : all = (P ++ [t]) ++ ts := by
      rw [hall]
      simp
    have hlen : (P ++ [t]).length = P.length + 1 := by simp
    rw [detectFrom]
    cases h1 : lookupA st.seenTitles (pyStrip t.title) with
    | some j1 =>
      have e1 : firstIdx (fun u => pyStrip u.title == pyStrip t.title) P = some j1 := by
        rw [← hT]; exact h1
      have eSpecT : specTitleDupsGo P (t :: ts) =
          (⟨pyStrip t.title, j1, P.length⟩ : TitleDup) :: specTitleDupsGo (P ++ [t]) ts := by
        rw [specTitleDupsGo, e1]
      cases h2 : lookupA st.seenContent (contentKey t) with
      | some j2 =>
        have e2 : firstIdx (fun u => contentKey u == contentKey t) P = some j2 := by
          rw [← hC]; exact h2
        have hj2 : j2 < P.length := firstIdx_some_lt e2
        have hgd : (all.getD j2 default) = (P.getD j2 default) := by
          rw [hall]
          exact getD_append_left hj2 default
        have eSpecC : specContentDupsGo P (t :: ts) =
            (⟨(P.getD j2 default).title, t.title, j2, P.length⟩ : ContentDup) ::
              specContentDupsGo (P ++ [t]) ts := by
          rw [specContentDupsGo, e2]
        have hstep : detectStep all P.length t st =
            (⟨st.seenTitles, st.seenContent,
              st.dupTitles ++ [(⟨pyStrip t.title, j1, P.length⟩ : TitleDup)],
              st.dupContent ++
                [(⟨(all.getD j2 default).title, t.title, j2, P.length⟩ : ContentDup)]⟩ :
              DetectState) := by
          simp only [detectStep]
          rw [detectTitleStep_of_some P.length h1]
          rw [detectContentStep_of_some all P.length (by exact h2)]
        rw [hstep, ← hlen]
        obtain ⟨ihT, ihC⟩ := ih (P ++ [t])
          (⟨st.seenTitles, st.seenContent,
            st.dupTitles ++ [(⟨pyStrip t.title, j1, P.length⟩ : TitleDup)],
            st.dupContent ++
              [(⟨(all.getD j2 default).title, t.title, j2, P.length⟩ : ContentDup)]⟩ :
            DetectState)
          hall' (seenMap_step_some hT h1) (seenMap_step_some hC h2)
        rw [ihT, ihC, eSpecT, eSpecC, hgd]
        constructor <;> simp
      | none =>
        have e2 : firstIdx (fun u => contentKey u == contentKey t) P = none := by
          rw [← hC]; exact h2
        have eSpecC : specContentDupsGo P (t :: ts) = specContentDupsGo (P ++ [t]) ts := by
          rw [specContentDupsGo, e2]
        have hstep : detectStep all P.length t st =
            (⟨st.seenTitles, st.seenContent ++ [(contentKey t, P.length)],
              st.dupTitles ++ [(⟨pyStrip t.title, j1, P.length⟩ : TitleDup)],
              st.dupContent⟩ : DetectState) := by
          simp only [detectStep]
          rw [detectTitleStep_of_some P.length h1]
          rw [detectContentStep_of_none all P.length (by exact h2)]
        rw [hstep, ← hlen]
        obtain ⟨ihT, ihC⟩ := ih (P ++ [t])
          (⟨st.seenTitles, st.seenContent ++ [(contentKey t, P.length)],
            st.dupTitles ++ [(⟨pyStrip t.title, j1, P.length⟩ : TitleDup)],
            st.dupContent⟩ : DetectState)
          hall' (seenMap_step_some hT h1) (seenMap_step_none hC t)
        rw [ihT, ihC, eSpecT, eSpecC]
        constructor <;> simp
    | none =>
      have e1 : firstIdx (fun u => pyStrip u.title == pyStrip t.title) P = none := by
        rw [← hT]; exact h1
      have eSpecT : specTitleDupsGo P (t :: ts) = specTitleDupsGo (P ++ [t]) ts := by
        rw [specTitleDupsGo, e1]
      cases h2 : lookupA st.seenContent (contentKey t) with
      | some j2 =>
        have e2 : firstIdx (fun u => contentKey u == contentKey t) P = some j2 := by
          rw [← hC]; exact h2
        have hj2 : j2 < P.length := firstIdx_some_lt e2
        have hgd : (all.getD j2 default) = (P.getD j2 default) := by
          rw [hall]
          exact getD_append_left hj2 default
        have eSpecC : specContentDupsGo P (t :: ts) =
            (⟨(P.getD j2 default).title, t.title, j2, P.length⟩ : ContentDup) ::
              specContentDupsGo (P ++ [t]) ts := by
          rw [specContentDupsGo, e2]
        have hstep : detectStep all P.length t st =
            (⟨st.seenTitles ++ [(pyStrip t.title, P.length)], st.seenContent,
              st.dupTitles,
              st.dupContent ++
                [(⟨(all.getD j2 default).title, t.title, j2, P.length⟩ : ContentDup)]⟩ :
              DetectState) := by
          simp only [detectStep]
          rw [detectTitleStep_of_none P.length h1]
          rw [detectContentStep_of_some all P.length (by exact h2)]
        rw [hstep, ← hlen]
        obtain ⟨ihT, ihC⟩ := ih (P ++ [t])
          (⟨st.seenTitles ++ [(pyStrip t.title, P.length)], st.seenContent,
            st.dupTitles,
            st.dupContent ++
              [(⟨(all.getD j2 default).title, t.title, j2, P.length⟩ : ContentDup)]⟩ :
            DetectState)
          hall' (seenMap_step_none hT t) (seenMap_step_some hC h2)
        rw [ihT, ihC, eSpecT, eSpecC, hgd]
        constructor <;> simp
      | none =>
        have e2 : firstIdx (fun u => contentKey u == contentKey t) P = none := by
          rw [← hC]; exact h2
        have eSpecC : specContentDupsGo P (t :: ts) = specContentDupsGo (P ++ [t]) ts := by
          rw [specContentDupsGo, e2]
        have hstep : detectStep all P.length t st =
            (⟨st.seenTitles ++ [(pyStrip t.title, P.length)],
              st.seenContent ++ [(contentKey t, P.length)],
              st.dupTitles, st.dupContent⟩ : DetectState) := by
          simp only [detectStep]
          rw [detectTitleStep_of_none P.length h1]
          rw [detectContentStep_of_none all P.length (by exact h2)]
        rw [hstep, ← hlen]
        obtain ⟨ihT, ihC⟩ := ih (P ++ [t])
          (⟨st.seenTitles ++ [(pyStrip t.title, P.length)],
            st.seenContent ++ [(contentKey t, P.length)],
            st.dupTitles, st.dupContent⟩ : DetectState)
          hall' (seenMap_step_none hT t) (seenMap_step_none hC t)
        rw [ihT, ihC, eSpecT, eSpecC]
        constructor <;> simp

/-! ### Lemmas about the deduplication stage -/

/-- Python `max` semantics: the result is a member of the list, its key is
maximal, and it is the first member attaining that key. -/
theorem maxByFirst_spec (f : Template → Int) :
    ∀ (l : List Template) (t : Template),
      maxByFirst f t l ∈ t :: l ∧
      (∀ v ∈ t :: l, f v ≤ f (maxByFirst f t l)) ∧
      (t :: l).find? (fun v => f v == f (maxByFirst f t l)) = some (maxByFirst f t l) := by
  intro l
  induction l with
  | nil =>
    intro t
    refine ⟨List.mem_cons_self t [], ?_, ?_⟩
    · intro v hv
      rcases List.mem_cons.mp hv with rfl | hv'
      · exact le_refl _
      · exact absurd hv' (List.not_mem_nil v)
    · rw [maxByFirst, List.find?_cons_of_pos _ (by simp)]
  | cons u us ih =>
    intro t
    by_cases hcase : f t < f u
    · rw [maxByFirst, if_pos hcase]
      obtain ⟨ihMem, ihMax, ihFind⟩ := ih u
      have hu : f u ≤ f (maxByFirst f u us) := ihMax u (List.mem_cons_self u us)
      have ht : f t < f (maxByFirst f u us) := lt_of_lt_of_le hcase hu
      refine ⟨?_, ?_, ?_⟩
      · rcases List.mem_cons.mp ihMem with h | h
        · rw [h]
          exact List.mem_cons_of_mem t (List.mem_cons_self u us)
        · exact List.mem_cons_of_mem t (List.mem_cons_of_mem u h)
      · intro v hv
        rcases List.mem_cons.mp hv with rfl | hv'
        · exact le_of_lt ht
        · exact ihMax v hv'
      · rw [List.find?_cons_of_neg _ (by simp only [beq_iff_eq]; omega)]
        exact ihFind
    · rw [maxByFirst, if_neg hcase]
      obtain ⟨ihMem, ihMax, ihFind⟩ := ih t
      have hut : f u ≤ f t := le_of_not_lt hcase
      have htle : f t ≤ f (maxByFirst f t us) := ihMax t (List.mem_cons_self t us)
      refine ⟨?_, ?_, ?_⟩
      · rcases List.mem_cons.mp ihMem with h | h
        · rw [h]
          exact List.mem_cons_self t (u :: us)
        · exact List.mem_cons_of_mem t (List.mem_cons_of_mem u h)
      · intro v hv
        rcases List.mem_cons.mp hv with rfl | hv'
        · exact htle
        rcases List.mem_cons.mp hv' with rfl | hv''
        · exact le_trans hut htle
        · exact ihMax v (List.mem_cons_of_mem t hv'')
      · by_cases hpt : f t = f (maxByFirst f t us)
        · have hhead : List.find? (fun v => f v == f (maxByFirst f t us)) (t :: us) = some t :=
            List.find?_cons_of_pos _ (by simp [hpt])
          have hMt : maxByFirst f t us = t := by
            rw [ihFind] at hhead
            exact Option.some.inj hhead
          rw [List.find?_cons_of_pos _ (by simp [hpt]), hMt]
        · have hflt : f t < f (maxByFirst f t us) := lt_of_le_of_ne htle hpt
          have hfind_us :
              List.find? (fun v => f v == f (maxByFirst f t us)) us =
                some (maxByFirst f t us) := by
            have h' := ihFind
            rwa [List.find?_cons_of_neg _ (by simp only [beq_iff_eq]; omega)] at h'
          rw [List.find?_cons_of_neg _ (by simp only [beq_iff_eq]; omega),
            List.find?_cons_of_neg _ (by simp only [beq_iff_eq]; omega)]
          exact hfind_us

/-- The record selected for a nonempty title group is in the group, has
the maximal score there, and is the group's first maximal-score member. -/
theorem bestFor_spec {all : List Template} {s : String} (h : sameTitle all s ≠ []) :
    bestFor all s ∈ sameTitle all s ∧
    (∀ v ∈ sameTitle all s, score v ≤ score (bestFor all s)) ∧
    (sameTitle all s).find? (fun v => score v == score (bestFor all s)) =
      some (bestFor all s) := by
  unfold bestFor
  cases hst : sameTitle all s with
  | nil => exact absurd hst h
  | cons t ts => exact maxByFirst_spec score ts t

theorem find?_filter_and (q p : Template → Bool) :
    ∀ l : List Template, (l.filter q).find? p = l.find? (fun v => q v && p v) := by
  intro l
  induction l with
  | nil => rfl
  | cons a l ih =>
    by_cases hq : q a
    · rw [List.filter_cons_of_pos hq]
      by_cases hp : p a
      · rw [List.find?_cons_of_pos _ hp, List.find?_cons_of_pos _ (by simp [hq, hp])]
      · rw [List.find?_cons_of_neg _ hp, List.find?_cons_of_neg _ (by simp [hq, hp]), ih]
    · rw [List.filter_cons_of_neg hq, List.find?_cons_of_neg _ (by simp [hq]), ih]

/-- The dedup loop is the map of the group-selection function over the
distinct trimmed titles in first-seen order. -/
theorem dedupGo_eq_map (all : List Template) :
    ∀ (l : List Template) (seen : List String),
      dedupGo all l seen = (uniqTitles l seen).map (bestFor all) := by
  intro l
  induction l with
  | nil => intro seen; rfl
  | cons t ts ih =>
    intro seen
    by_cases h : pyStrip t.title ∈ seen <;>
      simp [dedupGo, uniqTitles, h, ih]

theorem mem_uniqTitles :
    ∀ (l : List Template) (seen : List String) (s : String),
      s ∈ uniqTitles l seen ↔ s ∉ seen ∧ ∃ t ∈ l, pyStrip t.title = s := by
  intro l
  induction l with
  | nil => intro seen s; simp [uniqTitles]
  | cons t ts ih =>
    intro seen s
    rw [uniqTitles]
    by_cases h : pyStrip t.title ∈ seen
    · simp only [h, if_true]
      rw [ih]
      constructor
      · rintro ⟨hs, u, hu, hus⟩
        exact ⟨hs, u, List.mem_cons_of_mem t hu, hus⟩
      · rintro ⟨hs, u, hu, hus⟩
        rcases List.mem_cons.mp hu with heq | hu'
        · subst heq
          exact absurd (hus ▸ h) hs
        · exact ⟨hs, u, hu', hus⟩
    · simp only [h, if_false]
      rw [List.mem_cons, ih]
      constructor
      · rintro (rfl | ⟨hs, u, hu, hus⟩)
        · exact ⟨h, t, List.mem_cons_self t ts, rfl⟩
        · exact ⟨fun hm => hs (List.mem_cons_of_mem _ hm), u,
            List.mem_cons_of_mem t hu, hus⟩
      · rintro ⟨hs, u, hu, hus⟩
        rcases List.mem_cons.mp hu with heq | hu'
        · subst heq
          left
          exact hus.symm
        · by_cases hst : s = pyStrip t.title
          · left
            exact hst
          · right
            refine ⟨?_, u, hu', hus⟩
            intro hm
            rcases List.mem_cons.mp hm with h' | h'
            · exact hst h'
            · exact hs h'

theorem uniqTitles_nodup :
    ∀ (l : List Template) (seen : List String), (uniqTitles l seen).Nodup := by
  intro l
  induction l with
  | nil => intro seen; simp [uniqTitles]
  | cons t ts ih =>
    intro seen
    by_cases h : pyStrip t.title ∈ seen
    · rw [uniqTitles]
      simp only [h, if_true]
      exact ih seen
    · rw [uniqTitles]
      simp only [h, if_false]
      refine List.nodup_cons.mpr ⟨?_, ih _⟩
      intro hmem
      obtain ⟨hs, _⟩ := (mem_uniqTitles ts _ _).mp hmem
      exact hs (List.mem_cons_self _ _)

theorem uniqTitles_length_le :
    ∀ (l : List Template) (seen : List String), (uniqTitles l seen).length ≤ l.length := by
  intro l
  induction l with
  | nil => intro seen; simp [uniqTitles]
  | cons t ts ih =>
    intro seen
    rw [uniqTitles]
    by_cases h : pyStrip t.title ∈ seen
    · simp only [h, if_true]
      exact le_trans (ih seen) (Nat.le_succ _)
    · simp only [h, if_false, List.length_cons]
      exact Nat.succ_le_succ (ih _)

theorem uniqTitles_length_eq_iff :
    ∀ (l : List Template) (seen : List String),
      (uniqTitles l seen).length = l.length ↔
        (l.map (fun t => pyStrip t.title)).Nodup ∧ ∀ t ∈ l, pyStrip t.title ∉ seen := by
  intro l
  induction l with
  | nil => intro seen; simp [uniqTitles]
  | cons t ts ih =>
    intro seen
    rw [uniqTitles]
    by_cases h : pyStrip t.title ∈ seen
    · simp only [h, if_true]
      constructor
      · intro hlen
        exfalso
        have hle := uniqTitles_length_le ts seen
        rw [List.length_cons] at hlen
        omega
      · rintro ⟨_, hall⟩
        exact absurd h (hall t (List.mem_cons_self t ts))
    · simp only [h, if_false, List.length_cons]
      rw [add_left_inj, ih]
      constructor
      · rintro ⟨hnd, hall⟩
        refine ⟨?_, ?_⟩
        · rw [List.map_cons, List.nodup_cons]
          refine ⟨?_, hnd⟩
          intro hmem
          rcases List.mem_map.mp hmem with ⟨u, hu, hus⟩
          exact (hall u hu) (hus ▸ List.mem_cons_self _ _)
        · intro u hu
          rcases List.mem_cons.mp hu with heq | hu'
          · subst heq
            exact h
          · intro hmem
            exact (hall u hu') (List.mem_cons_of_mem _ hmem)
      · rintro ⟨hnd, hall⟩
        rw [List.map_cons, List.nodup_cons] at hnd
        obtain ⟨hnotin, hnd'⟩ := hnd
        refine ⟨hnd', ?_⟩
        intro u hu hmem
        rcases List.mem_cons.mp hmem with heq | hm'
        · exact hnotin (List.mem_map.mpr ⟨u, hu, heq⟩)
        · exact (hall u (List.mem_cons_of_mem t hu)) hm'

theorem sameTitle_ne_nil {all : List Template} {s : String}
    (h : ∃ t ∈ all, pyStrip t.title = s) : sameTitle all s ≠ [] := by
  obtain ⟨t, ht, hts⟩ := h
  have : t ∈ sameTitle all s := List.mem_filter.mpr ⟨ht, by simp [hts]⟩
  exact List.ne_nil_of_mem this

theorem bestFor_title {all : List Template} {s : String} (h : sameTitle all s ≠ []) :
    pyStrip (bestFor all s).title = s := by
  have hmem := (bestFor_spec h).1
  have hm := List.mem_filter.mp hmem
  simpa using hm.2

theorem filter_beq_of_nodup :
    ∀ (l : List String) (s : String), l.Nodup → s ∈ l →
      l.filter (fun k => k == s) = [s] := by
  intro l
  induction l with
  | nil => intro s _ hs; exact absurd hs (List.not_mem_nil s)
  | cons a as ih =>
    intro s hnd hs
    obtain ⟨hna, hnd'⟩ := List.nodup_cons.mp hnd
    rcases List.mem_cons.mp hs with heq | hs'
    · subst heq
      rw [List.filter_cons_of_pos (by simp)]
      have hnil : as.filter (fun k => k == s) = [] := by
        rw [List.filter_eq_nil_iff]
        intro x hx
        simp only [beq_iff_eq]
        rintro rfl
        exact hna hx
      rw [hnil]
    · have hne : ¬((a == s) = true) := by
        simp only [beq_iff_eq]
        rintro rfl
        exact hna hs'
      rw [List.filter_cons_of_neg (p := fun k => k == s) hne, ih s hnd' hs']

theorem dedup_subset (all : List Template) : ∀ u ∈ dedup all, u ∈ all := by
  unfold dedup
  rw [dedupGo_eq_map]
  intro u hu
  rcases List.mem_map.mp hu with ⟨k, hk, hbk⟩
  obtain ⟨_, hex⟩ := (mem_uniqTitles all [] k).mp hk
  have hkne := sameTitle_ne_nil hex
  have hmem := (bestFor_spec hkne).1
  rw [hbk] at hmem
  exact (List.mem_filter.mp hmem).1

/-! ### Claim theorems: detector and deduplicator -/

/-- C6: during the detection pass, a record whose trimmed title equals the
trimmed title of an earlier record contributes exactly one entry to the
report's titles list, pairing the index of the first-seen record having
that trimmed title with the current index; the first record with a given
trimmed title contributes nothing. -/
theorem detect_titles_report_eq_spec (all : List Template) :
    (detect all).dupTitles = specTitleDups all := by
  unfold detect specTitleDups
  have h := detectFrom_spec all all [] ⟨[], [], [], []⟩ rfl (fun _ => rfl) (fun _ => rfl)
  simpa using h.1

/-- C3 (amended): two records are reported as a content duplicate exactly
when the first 200 characters of their whitespace-stripped content match,
the earlier record being the first-seen occurrence of that stripped
prefix; the raw (unstripped) 200-character prefixes play no role. -/
theorem detect_content_report_eq_spec (all : List Template) :
    (detect all).dupContent = specContentDups all := by
  unfold detect specContentDups
  have h := detectFrom_spec all all [] ⟨[], [], [], []⟩ rfl (fun _ => rfl) (fun _ => rfl)
  simpa using h.2

/-- C3 counterexample: the detector reports these two records as a content
duplicate although the first 200 characters of their content fields do not
match exactly — the code strips the content before taking the prefix. -/
theorem content_dup_despite_distinct_raw_prefixes :
    (detect [cexRawA, cexRawB]).dupContent = [(⟨"A", "B", 0, 1⟩ : ContentDup)] ∧
    cexRawA.content.toList.take 200 ≠ cexRawB.content.toList.take 200 := by
  constructor
  · decide
  · decide

/-- C1: for every loaded record list and every trimmed title occurring in
it, the deduplicated output contains exactly one record with that trimmed
title; that record is a loaded record with that trimmed title, its
viewCount + useCount is maximal among the loaded records sharing the
title, and it is the first record in input order attaining that maximum. -/
theorem dedup_unique_best (all : List Template) (s : String)
    (h : ∃ t ∈ all, pyStrip t.title = s) :
    ∃ u,
      (dedup all).filter (fun v => pyStrip v.title == s) = [u] ∧
      u ∈ all ∧ pyStrip u.title = s ∧
      (∀ v ∈ all, pyStrip v.title = s → score v ≤ score u) ∧
      all.find? (fun v => (pyStrip v.title == s) && (score v == score u)) = some u := by
  have hne := sameTitle_ne_nil h
  obtain ⟨hmem, hmax, hfind⟩ := bestFor_spec hne
  have hmemall := (List.mem_filter.mp hmem).1
  refine ⟨bestFor all s, ?_, hmemall, bestFor_title hne, ?_, ?_⟩
  · unfold dedup
    rw [dedupGo_eq_map, List.filter_map]
    have hcongr : ∀ k ∈ uniqTitles all [],
        ((fun v => pyStrip v.title == s) ∘ bestFor all) k = (k == s) := by
      intro k hk
      obtain ⟨_, hex⟩ := (mem_uniqTitles all [] k).mp hk
      simp [Function.comp_apply, bestFor_title (sameTitle_ne_nil hex)]
    rw [List.filter_congr hcongr]
    rw [filter_beq_of_nodup _ s (uniqTitles_nodup all [])
      ((mem_uniqTitles all [] s).mpr ⟨List.not_mem_nil s, h⟩)]
    rfl
  · intro v hv hvs
    exact hmax v (List.mem_filter.mpr ⟨hv, by simp [hvs]⟩)
  · have hf := hfind
    unfold sameTitle at hf
    rw [find?_filter_and] at hf
    exact hf

/-- Witness for C1 at a concrete two-record tie: the first record wins. -/
theorem dedup_unique_best_witness :
    ∃ u,
      (dedup [cexTieA, cexTieB]).filter (fun v => pyStrip v.title == "X") = [u] ∧
      u ∈ [cexTieA, cexTieB] ∧ pyStrip u.title = "X" ∧
      (∀ v ∈ [cexTieA, cexTieB], pyStrip v.title = "X" → score v ≤ score u) ∧
      ([cexTieA, cexTieB]).find?
        (fun v => (pyStrip v.title == "X") && (score v == score u)) = some u :=
  dedup_unique_best [cexTieA, cexTieB] "X" (by decide)

/-- C2: deduplication never lengthens the list, and preserves the length
exactly when the trimmed titles of the loaded records are pairwise
distinct. -/
theorem dedup_length_le_iff (all : List Template) :
    (dedup all).length ≤ all.length ∧
      ((dedup all).length = all.length ↔
        (all.map (fun t => pyStrip t.title)).Nodup) := by
  unfold dedup
  rw [dedupGo_eq_map, List.length_map]
  refine ⟨uniqTitles_length_le all [], ?_⟩
  rw [uniqTitles_length_eq_iff]
  constructor
  · rintro ⟨hnd, _⟩
    exact hnd
  · intro hnd
    exact ⟨hnd, fun t _ => List.not_mem_nil _⟩

/-- C7: the final output sequence is sorted non-decreasingly in the
lexicographic order on the pair (category, title). -/
theorem final_sorted_by_category_title (all : List Template) :
    List.Sorted keyLE (finalTemplates all) :=
  List.sorted_insertionSort keyLE (dedup all)

/-- C9: no stage after loading mutates a record: every record of the
final output is field-for-field one of the loaded records. -/
theorem final_output_from_loaded (all : List Template) (t : Template)
    (h : t ∈ finalTemplates all) : t ∈ all := by
  unfold finalTemplates at h
  exact dedup_subset all t ((List.perm_insertionSort keyLE (dedup all)).mem_iff.mp h)

/-- Witness for C9 at a concrete input. -/
theorem final_output_from_loaded_witness : cexTieA ∈ [cexTieA, cexTieB] :=
  final_output_from_loaded [cexTieA, cexTieB] cexTieA (by decide)

/-! ### Claim theorems: loaders -/

theorem option_do2 {x y : Option Int} {f : Int → Int → Template} {t : Template}
    (h : (do
        let a ← x
        let b ← y
        pure (f a b) : Option Template) = some t) :
    ∃ a b, x = some a ∧ y = some b ∧ t = f a b := by
  cases x with
  | none => simp at h
  | some a =>
    cases y with
    | none => simp at h
    | some b =>
      simp at h
      exact ⟨a, b, rfl, rfl, h.symm⟩

theorem csvCountPlain_nonneg {c : Option String} {n : Int}
    (hc : ∀ s m, c = some s → parsePyInt s = some m → 0 ≤ m)
    (h : csvCountPlain c = some n) : 0 ≤ n := by
  cases c with
  | none =>
    simp [csvCountPlain] at h
    omega
  | some s => exact hc s n rfl h

theorem csvCountGuarded_nonneg {c : Option String} {n : Int}
    (hc : ∀ s m, c = some s → parsePyInt s = some m → 0 ≤ m)
    (h : csvCountGuarded c = some n) : 0 ≤ n := by
  cases c with
  | none =>
    simp [csvCountGuarded] at h
    omega
  | some s =>
    by_cases hs : s = ""
    · simp [csvCountGuarded, hs] at h
      omega
    · simp [csvCountGuarded, hs] at h
      exact hc s n rfl h

theorem jsonCount_nonneg {c : Option JCount} {n : Int} (hc : jCountNonneg c)
    (h : jsonCount c = some n) : 0 ≤ n := by
  obtain ⟨h1, h2⟩ := hc
  cases c with
  | none =>
    simp [jsonCount] at h
    omega
  | some jc =>
    cases jc with
    | num m =>
      simp [jsonCount] at h
      exact h ▸ h1 m rfl
    | str s => exact h2 s n rfl (by simpa [jsonCount] using h)

/-- C4 (amended): every loaded count is an integer, and it is non-negative
provided the source count values are themselves non-negative (absent
fields always load as 0); without that proviso a negative source count is
loaded verbatim. -/
theorem loaded_counts_nonneg :
    (∀ row t, csvCountsNonneg row → loadSampleCsvRow row = some t →
      0 ≤ t.viewCount ∧ 0 ≤ t.useCount) ∧
    (∀ item t, jsonCountsNonneg item → loadSampleJsonItem item = some t →
      0 ≤ t.viewCount ∧ 0 ≤ t.useCount) ∧
    (∀ row t, csvCountsNonneg row → loadPlainCsvRow row = some t →
      0 ≤ t.viewCount ∧ 0 ≤ t.useCount) ∧
    (∀ item t, jsonCountsNonneg item → loadPlainJsonItem item = some t →
      0 ≤ t.viewCount ∧ 0 ≤ t.useCount) ∧
    (∀ row t, csvCountsNonneg row → loadAnalyzedCsvRow row = some t →
      0 ≤ t.viewCount ∧ 0 ≤ t.useCount) := by
  refine ⟨?_, ?_, ?_, ?_, ?_⟩
  · intro row t hc h
    unfold loadSampleCsvRow at h
    obtain ⟨vc, uc, hv, hu, ht⟩ := option_do2 h
    subst ht
    exact ⟨csvCountPlain_nonneg hc.1 hv, csvCountPlain_nonneg hc.2 hu⟩
  · intro item t hc h
    unfold loadSampleJsonItem at h
    obtain ⟨vc, uc, hv, hu, ht⟩ := option_do2 h
    subst ht
    exact ⟨jsonCount_nonneg hc.1 hv, jsonCount_nonneg hc.2 hu⟩
  · intro row t hc h
    unfold loadPlainCsvRow at h
    obtain ⟨vc, uc, hv, hu, ht⟩ := option_do2 h
    subst ht
    exact ⟨csvCountGuarded_nonneg hc.1 hv, csvCountGuarded_nonneg hc.2 hu⟩
  · intro item t hc h
    unfold loadPlainJsonItem at h
    obtain ⟨vc, uc, hv, hu, ht⟩ := option_do2 h
    subst ht
    exact ⟨jsonCount_nonneg hc.1 hv, jsonCount_nonneg hc.2 hu⟩
  · intro row t hc h
    unfold loadAnalyzedCsvRow at h
    obtain ⟨vc, uc, hv, hu, ht⟩ := option_do2 h
    subst ht
    exact ⟨csvCountGuarded_nonneg hc.1 hv, csvCountGuarded_nonneg hc.2 hu⟩

/-- C4 counterexample: a loader happily produces a negative viewCount from
a source cell "-1"; nothing enforces non-negativity. -/
theorem loader_negative_count :
    loadSampleCsvRow negRow = some negTemplate ∧ negTemplate.viewCount < 0 := by
  constructor
  · rfl
  · decide

/-- Witness for C4 (amended) at a concrete row with absent counts. -/
theorem loaded_counts_nonneg_witness :
    0 ≤ allNoneTemplate.viewCount ∧ 0 ≤ allNoneTemplate.useCount :=
  loaded_counts_nonneg.1 allNoneRow allNoneTemplate
    (by
      constructor <;> intro s n hs hn <;> simp [allNoneRow] at hs)
    rfl

/-- C5 counterexample: on the very same row, whose viewCount is present
but not a well-formed integer (the empty string), the sample CSV loader
raises while the plaintext CSV loader silently loads the count as 0 — the
loaders do not behave identically and a malformed count need not raise. -/
theorem loaders_differ_on_empty_count :
    loadSampleCsvRow emptyCountRow = none ∧
    loadPlainCsvRow emptyCountRow = some emptyCountTemplate ∧
    parsePyInt "" = none := by
  refine ⟨rfl, rfl, rfl⟩

/-- C5 (amended): every loader fills a missing count field with 0, and the
sample CSV loader (and, on string values, the JSON loaders) coerces every
present value with `int(...)`, so any malformed present value — the empty
string included — raises and terminates the program; the plaintext and
analyzed CSV loaders instead map a falsy (empty) cell to 0 and coerce only
nonempty cells. Hence the two CSV count coercions agree exactly on cells
other than a present empty string, and a failing coercion makes the
surrounding loader raise. -/
theorem loader_count_behaviour :
    csvCountPlain none = some 0 ∧
    csvCountGuarded none = some 0 ∧
    jsonCount none = some 0 ∧
    (∀ c, csvCountPlain c = csvCountGuarded c ↔ c ≠ some "") ∧
    (∀ s, s ≠ "" → csvCountPlain (some s) = parsePyInt s ∧
      csvCountGuarded (some s) = parsePyInt s) ∧
    (∀ s, jsonCount (some (JCount.str s)) = parsePyInt s) ∧
    (∀ row, csvCountPlain row.viewCount = none → loadSampleCsvRow row = none) ∧
    (∀ row, csvCountGuarded row.viewCount = none → loadPlainCsvRow row = none) := by
  refine ⟨rfl, rfl, rfl, ?_, ?_, ?_, ?_, ?_⟩
  · intro c
    cases c with
    | none => simp [csvCountPlain, csvCountGuarded]
    | some s =>
      by_cases hs : s = ""
      · subst hs
        simp [csvCountPlain, csvCountGuarded, show parsePyInt "" = none from rfl]
      · simp [csvCountPlain, csvCountGuarded, hs]
  · intro s hs
    exact ⟨rfl, by simp [csvCountGuarded, hs]⟩
  · intro s
    rfl
  · intro row h
    unfold loadSampleCsvRow
    rw [h]
    rfl
  · intro row h
    unfold loadPlainCsvRow
    rw [h]
    rfl

/-- Witness for C5 (amended) at the concrete nonempty cell "7". -/
theorem loader_count_behaviour_witness :
    csvCountPlain (some "7") = parsePyInt "7" ∧
      csvCountGuarded (some "7") = parsePyInt "7" :=
  loader_count_behaviour.2.2.2.2.1 "7" (by decide)

/-- C10: the sample CSV and sample JSON loaders set the loaded record's
format to "html" whatever the source row or item carries; the plaintext
and analyzed loaders, by contrast, propagate a present source format
(defaulting to "plain"), so the source format is ignored for the two
sample sources only. -/
theorem sample_loaders_force_html :
    (∀ row t, loadSampleCsvRow row = some t → t.format = "html") ∧
    (∀ item t, loadSampleJsonItem item = some t → t.format = "html") ∧
    (∀ row t, loadPlainCsvRow row = some t → t.format = row.format.getD "plain") ∧
    (∀ item t, loadPlainJsonItem item = some t → t.format = item.format.getD "plain") ∧
    (∀ row t, loadAnalyzedCsvRow row = some t → t.format = row.format.getD "plain") := by
  refine ⟨?_, ?_, ?_, ?_, ?_⟩
  · intro row t h
    unfold loadSampleCsvRow at h
    obtain ⟨vc, uc, _, _, ht⟩ := option_do2 h
    subst ht
    rfl
  · intro item t h
    unfold loadSampleJsonItem at h
    obtain ⟨vc, uc, _, _, ht⟩ := option_do2 h
    subst ht
    rfl
  · intro row t h
    unfold loadPlainCsvRow at h
    obtain ⟨vc, uc, _, _, ht⟩ := option_do2 h
    subst ht
    rfl
  · intro item t h
    unfold loadPlainJsonItem at h
    obtain ⟨vc, uc, _, _, ht⟩ := option_do2 h
    subst ht
    rfl
  · intro row t h
    unfold loadAnalyzedCsvRow at h
    obtain ⟨vc, uc, _, _, ht⟩ := option_do2 h
    subst ht
    rfl

/-- Witness for C10: the sample CSV loader run on a row carrying format
"xml" yields format "html". -/
theorem sample_loaders_force_html_witness : xmlTemplate.format = "html" :=
  sample_loaders_force_html.1 xmlRow xmlTemplate rfl

/-! ### Decimal rendering of the counts: the CSV row determines the record -/

theorem toDigitsCore_eq_natChars :
    ∀ (fuel n : Nat) (ds : List Char), n < fuel →
      Nat.toDigitsCore 10 fuel n ds = natChars n ++ ds := by
  intro fuel
  induction fuel with
  | zero => intro n ds h; omega
  | succ fuel ih =>
    intro n ds h
    rw [Nat.toDigitsCore]
    by_cases h0 : n / 10 = 0
    · have hn : n < 10 := by omega
      simp only [h0, if_true, reduceIte]
      rw [natChars, dif_pos hn, Nat.mod_eq_of_lt hn]
      rfl
    · have hn : ¬ n < 10 := by
        intro hlt
        exact h0 (Nat.div_eq_of_lt hlt)
      have hdiv : n / 10 < n := Nat.div_lt_self (by omega) (by omega)
      simp only [h0, if_false, reduceIte]
      rw [ih (n / 10) _ (by omega)]
      conv_rhs => rw [natChars]
      rw [dif_neg hn, List.append_assoc]
      rfl

theorem natChars_digits :
    ∀ n : Nat, ∀ c ∈ natChars n, ∃ d, d < 10 ∧ c = Nat.digitChar d := by
  intro n
  induction n using Nat.strong_induction_on with
  | _ n ih =>
    rw [natChars]
    by_cases h : n < 10
    · rw [dif_pos h]
      intro c hc
      rw [List.mem_singleton] at hc
      exact ⟨n, h, hc⟩
    · rw [dif_neg h]
      intro c hc
      rcases List.mem_append.mp hc with hc' | hc'
      · exact ih (n / 10) (Nat.div_lt_self (by omega) (by omega)) c hc'
      · rw [List.mem_singleton] at hc'
        exact ⟨n % 10, Nat.mod_lt _ (by omega), hc'⟩

theorem digitChar_not_whitespace {d : Nat} (h : d < 10) :
    (Nat.digitChar d).isWhitespace = false := by
  interval_cases d <;> decide

theorem digitChar_ne_dash {d : Nat} (h : d < 10) : Nat.digitChar d ≠ '-' := by
  interval_cases d <;> decide

theorem digitChar_ne_plus {d : Nat} (h : d < 10) : Nat.digitChar d ≠ '+' := by
  interval_cases d <;> decide

theorem charDigit_digitChar {d : Nat} (h : d < 10) :
    charDigit (Nat.digitChar d) = some d := by
  interval_cases d <;> decide

theorem natChars_ne_nil (n : Nat) : natChars n ≠ [] := by
  rw [natChars]
  by_cases h : n < 10
  · rw [dif_pos h]
    simp
  · rw [dif_neg h]
    simp

theorem dropWhile_eq_self_of_not {p : Char → Bool} :
    ∀ {l : List Char}, (∀ c ∈ l, p c = false) → l.dropWhile p = l := by
  intro l h
  cases l with
  | nil => rfl
  | cons c cs =>
    rw [List.dropWhile_cons]
    simp [h c (List.mem_cons_self c cs)]

theorem stripChars_eq_self {l : List Char} (h : ∀ c ∈ l, c.isWhitespace = false) :
    stripChars l = l := by
  unfold stripChars
  rw [dropWhile_eq_self_of_not h,
    dropWhile_eq_self_of_not (fun c hc => h c (List.mem_reverse.mp hc)),
    List.reverse_reverse]

theorem digitsToNatAux_append :
    ∀ (xs ys : List Char) (acc : Nat),
      digitsToNatAux (xs ++ ys) acc =
        (digitsToNatAux xs acc).bind (fun m => digitsToNatAux ys m) := by
  intro xs
  induction xs with
  | nil => intro ys acc; rfl
  | cons c cs ih =>
    intro ys acc
    rw [List.cons_append]
    cases hc : charDigit c with
    | none => simp [digitsToNatAux, hc]
    | some d => simp [digitsToNatAux, hc, ih]

theorem digitsToNatAux_natChars : ∀ n : Nat, digitsToNatAux (natChars n) 0 = some n := by
  intro n
  induction n using Nat.strong_induction_on with
  | _ n ih =>
    rw [natChars]
    by_cases h : n < 10
    · rw [dif_pos h]
      simp [digitsToNatAux, charDigit_digitChar h]
    · rw [dif_neg h]
      rw [digitsToNatAux_append, ih (n / 10) (Nat.div_lt_self (by omega) (by omega))]
      have hm : n % 10 < 10 := Nat.mod_lt _ (by omega)
      simp only [Option.some_bind]
      simp [digitsToNatAux, charDigit_digitChar hm]
      omega

theorem toList_natRepr (m : Nat) : (Nat.repr m).toList = natChars m := by
  show (Nat.toDigits 10 m).asString.toList = natChars m
  rw [Nat.toDigits, toDigitsCore_eq_natChars (m + 1) m [] (by omega), List.append_nil]
  rfl

theorem parsePyInt_natRepr (m : Nat) : parsePyInt (Nat.repr m) = some (m : Int) := by
  unfold parsePyInt
  rw [toList_natRepr]
  have hws : ∀ c ∈ natChars m, c.isWhitespace = false := by
    intro c hc
    obtain ⟨d, hd, rfl⟩ := natChars_digits m c hc
    exact digitChar_not_whitespace hd
  rw [stripChars_eq_self hws]
  cases hnc : natChars m with
  | nil => exact absurd hnc (natChars_ne_nil m)
  | cons c cs =>
    have hcmem : c ∈ natChars m := by
      rw [hnc]
      exact List.mem_cons_self _ _
    obtain ⟨d, hd, hcd⟩ := natChars_digits m c hcmem
    simp only [hcd, digitChar_ne_dash hd, digitChar_ne_plus hd, if_false, reduceIte]
    rw [← hcd, ← hnc, digitsToNatAux_natChars m]
    rfl

theorem parsePyInt_intRepr : ∀ n : Int, parsePyInt (Int.repr n) = some n := by
  intro n
  cases n with
  | ofNat m => exact parsePyInt_natRepr m
  | negSucc m =>
    show parsePyInt ("-" ++ Nat.repr (m + 1)) = some (Int.negSucc m)
    unfold parsePyInt
    have hlist : ("-" ++ Nat.repr (m + 1)).toList = '-' :: natChars (m + 1) := by
      show ("-" ++ Nat.repr (m + 1)).data = '-' :: natChars (m + 1)
      rw [String.data_append]
      rw [show (Nat.repr (m + 1)).data = natChars (m + 1) from toList_natRepr (m + 1)]
      rfl
    rw [hlist]
    have hws : ∀ c ∈ '-' :: natChars (m + 1), c.isWhitespace = false := by
      intro c hc
      rcases List.mem_cons.mp hc with rfl | hc'
      · decide
      · obtain ⟨d, hd, rfl⟩ := natChars_digits _ c hc'
        exact digitChar_not_whitespace hd
    rw [stripChars_eq_self hws]
    simp only [if_pos rfl, reduceIte]
    cases hnc : natChars (m + 1) with
    | nil => exact absurd hnc (natChars_ne_nil _)
    | cons c cs =>
      show (digitsToNatAux (c :: cs) 0).map (fun n => -(n : Int)) = some (Int.negSucc m)
      rw [← hnc, digitsToNatAux_natChars (m + 1)]
      show some (-((m + 1 : Nat) : Int)) = some (Int.negSucc m)
      rw [Int.negSucc_eq]
      push_cast
      rfl

theorem intRepr_injective : Function.Injective Int.repr := by
  intro a b h
  have ha := parsePyInt_intRepr a
  rw [h, parsePyInt_intRepr b] at ha
  exact (Option.some.inj ha).symm

theorem csvRowOf_injective : Function.Injective csvRowOf := by
  intro t u h
  unfold csvRowOf at h
  simp only [List.cons.injEq, and_true] at h
  obtain ⟨e1, e2, e3, e4, e5, e6, e7, e8, e9⟩ := h
  have ev : t.viewCount = u.viewCount := intRepr_injective e8
  have eu : t.useCount = u.useCount := intRepr_injective e9
  cases t
  cases u
  simp_all

/-- C8: the record sequence serialised to the consolidated CSV is, row by
row and field for field, exactly the record sequence serialised to the
consolidated JSON: the CSV output is the fixed header followed by the row
rendering of precisely the JSON record list, in the same order, and the
row rendering is injective, so CSV row i and JSON record i carry the same
nine field values. -/
theorem csv_json_same_records (all : List Template) :
    writeCsv (finalTemplates all) =
      csvFieldnames :: (writeJson (finalTemplates all)).map csvRowOf ∧
    Function.Injective csvRowOf :=
  ⟨rfl, csvRowOf_injective⟩
